import Mathlib

/-!
Verification of the orchard Monte Carlo simulator (src/main.rs).

The game state machine (`Game`, `DieRoll`, `Outcome`, `Game.apply`) and the
tally reduction of `estimate_win_rate` are shallowly embedded below.  `u8`
values are modelled as `Nat`: every mutation of `bird_position` and of the
`orchards` entries in the source is a `saturating_sub(1)`, which coincides
with truncated `Nat` subtraction, so no `% 256` is needed on those fields.
The one place the source does width-sensitive arithmetic is
`orchards.iter().sum::<u8>()` in the terminal check, so the embedded check
reduces the pile sum modulo 256; since every field of interest stays at or
below its initial value 4 on reachable states, the reduction is the identity
there.

Rust's `Iterator::max` returns the *last* of equally-maximal elements, so the
embedding of the `Basket` arm tries index 3 first, then 2, 1, 0, which picks
the largest index attaining the maximum, exactly as
`orchards.iter_mut().max()` does.
-/

namespace Orchard

/-- The six die faces of `enum DieRoll` in src/main.rs. -/
inductive DieRoll : Type
  | Red
  | Green
  | Blue
  | Yellow
  | Basket
  | Bird
deriving DecidableEq, Repr

/-- Terminal classification of a trial, `enum Outcome` in src/main.rs. -/
inductive Outcome : Type
  | Won
  | Lost
deriving DecidableEq, Repr

/-- The `struct Game` of src/main.rs: the bird's distance to the orchard and the
four apple piles `orchards: [u8; 4]`, embedded as four named fields
(index 0 = red, 1 = green, 2 = blue, 3 = yellow). -/
structure Game : Type where
  bird_position : Nat
  o0 : Nat
  o1 : Nat
  o2 : Nat
  o3 : Nat
deriving DecidableEq, Repr

/-- Constructor `Game::new`: given bird position, all four orchards start at 4. -/
def Game.new (bird_position : Nat) : Game :=
  { bird_position := bird_position, o0 := 4, o1 := 4, o2 := 4, o3 := 4 }

/-- Mathematical sum of the four piles (no wrap-around). -/
def Game.pileSum (g : Game) : Nat :=
  g.o0 + g.o1 + g.o2 + g.o3

/-- The state mutation performed by `Game::apply` for one roll, before the
terminal check.  The `Basket` arm embeds
`self.orchards.iter_mut().max().unwrap()`: Rust's `max` yields the last
maximal element, i.e. the greatest index holding the maximum, so index 3 is
tested first, then 2, 1, 0.  All decrements are `saturating_sub(1)`, which is
truncated subtraction on `Nat`. -/
def Game.step (g : Game) (r : DieRoll) : Game :=
  match r with
  | DieRoll.Red => { g with o0 := g.o0 - 1 }
  | DieRoll.Green => { g with o1 := g.o1 - 1 }
  | DieRoll.Blue => { g with o2 := g.o2 - 1 }
  | DieRoll.Yellow => { g with o3 := g.o3 - 1 }
  | DieRoll.Basket =>
    if g.o3 = max (max g.o0 g.o1) (max g.o2 g.o3) then { g with o3 := g.o3 - 1 }
    else if g.o2 = max (max g.o0 g.o1) (max g.o2 g.o3) then { g with o2 := g.o2 - 1 }
    else if g.o1 = max (max g.o0 g.o1) (max g.o2 g.o3) then { g with o1 := g.o1 - 1 }
    else { g with o0 := g.o0 - 1 }
  | DieRoll.Bird => { g with bird_position := g.bird_position - 1 }

/-- The terminal check at the end of `Game::apply`: loss first, then win.
The pile sum is taken as `u8` in the source (`iter().sum::<u8>()`), hence the
`% 256`. -/
def Game.terminalCheck (g : Game) : Option Outcome :=
  if g.bird_position = 0 then some Outcome.Lost
  else if g.pileSum % 256 = 0 then some Outcome.Won
  else none

/-- Embedding of `Game::apply`: mutate the state by one roll and report a terminal outcome
if one was produced.  The mutated state is returned alongside the `Option`
since the embedding is pure. -/
def Game.apply (g : Game) (r : DieRoll) : Game × Option Outcome :=
  (g.step r, (g.step r).terminalCheck)

/-- The loop of `Game::full_game`, run over an explicit list of rolls:
returns the first terminal outcome, or `none` if the given rolls are
exhausted before the game ends. -/
def Game.runTrial : Game → List DieRoll → Option Outcome
  | _, [] => none
  | g, r :: rs =>
    match (g.step r).terminalCheck with
    | some o => some o
    | none => (g.step r).runTrial rs

/-- Termination measure: `bird_position` plus the pile sum. -/
def Game.measure (g : Game) : Nat :=
  g.bird_position + g.pileSum

/-- Holds (`true`) when every roll that the trial loop actually applies changes the
state (no applied roll is a saturating no-op); rolls after the first terminal
outcome are not applied and are not constrained. -/
def Game.allEffective : Game → List DieRoll → Bool
  | _, [] => true
  | g, r :: rs =>
    if g.step r = g then false
    else
      match (g.step r).terminalCheck with
      | some _ => true
      | none => (g.step r).allEffective rs

/-- Per-trial tally from the `map` in `estimate_win_rate`:
`Won ↦ (1, 0)`, `Lost ↦ (0, 1)`. -/
def tallyOutcome : Outcome → Nat × Nat
  | Outcome.Won => (1, 0)
  | Outcome.Lost => (0, 1)

/-- The reduction operation of `estimate_win_rate`:
`|a, b| (a.0 + b.0, a.1 + b.1)`. -/
def combine (a b : Nat × Nat) : Nat × Nat :=
  (a.1 + b.1, a.2 + b.2)

/-- Tally of a batch of per-trial outcomes: map each to its `(won, lost)`
pair and reduce with `combine` from identity `(0, 0)`. -/
def tally (os : List Outcome) : Nat × Nat :=
  (os.map tallyOutcome).foldr combine (0, 0)

/-- Computes `win_rate_percent = 100.0 * won as f64 / (won + lost) as f64`, with the
floating-point arithmetic modelled as exact rational arithmetic. -/
def winRate (os : List Outcome) : ℚ :=
  100 * ((tally os).1 : ℚ) / (((tally os).1 : ℚ) + ((tally os).2 : ℚ))

/-- Tally splits over list concatenation via `combine`. -/
theorem tally_append (l1 l2 : List Outcome) :
    tally (l1 ++ l2) = combine (tally l1) (tally l2) := by
  induction l1 with
  | nil => simp [tally, combine]
  | cons o l1 ih =>
    simp only [tally, List.map_cons, List.foldr_cons, List.cons_append,
      List.map_append] at *
    rw [ih]
    simp [combine, Nat.add_assoc]

/-- C1: after the mutation of `apply`, the returned value checks loss first:
`Lost` when the new `bird_position` is 0, else `Won` when the new pile sum is
0, else `none`; in particular a transition reaching both `bird_position = 0`
and pile sum 0 is classified `Lost`, not `Won`.  Stated on states satisfying
the documented pile invariant (each pile at most 4), where the `u8` pile sum
cannot wrap. -/
theorem apply_checks_loss_first (g : Game) (r : DieRoll)
    (h0 : g.o0 ≤ 4) (h1 : g.o1 ≤ 4) (h2 : g.o2 ≤ 4) (h3 : g.o3 ≤ 4) :
    ((g.apply r).2 =
      if (g.step r).bird_position = 0 then some Outcome.Lost
      else if (g.step r).pileSum = 0 then some Outcome.Won
      else none) ∧
    ((g.step r).bird_position = 0 → (g.step r).pileSum = 0 →
      (g.apply r).2 = some Outcome.Lost) := by
  obtain ⟨b, a0, a1, a2, a3⟩ := g
  simp only at h0 h1 h2 h3
  have hle : ((Game.mk b a0 a1 a2 a3).step r).pileSum ≤ 16 := by
    cases r <;> simp only [Game.step, Game.pileSum] <;> (try split_ifs) <;>
      (try dsimp only) <;> omega
  have hmod : ((Game.mk b a0 a1 a2 a3).step r).pileSum % 256 =
      ((Game.mk b a0 a1 a2 a3).step r).pileSum := Nat.mod_eq_of_lt (by omega)
  constructor
  · simp only [Game.apply, Game.terminalCheck, hmod]
  · intro hb hp
    simp [Game.apply, Game.terminalCheck, hb]

/-- Witness for `apply_checks_loss_first` at `⟨1, 0, 0, 0, 0⟩` with a `Bird`
roll: the transition reaches bird position 0 and pile sum 0 simultaneously
and is classified `Lost`. -/
theorem apply_checks_loss_first_witness :
    ((Game.mk 1 0 0 0 0).apply DieRoll.Bird).2 = some Outcome.Lost :=
  (apply_checks_loss_first (Game.mk 1 0 0 0 0) DieRoll.Bird
    (by decide) (by decide) (by decide) (by decide)).2 (by decide) (by decide)

/-- The maximum value among the four piles. -/
def Game.maxPile (g : Game) : Nat :=
  max (max g.o0 g.o1) (max g.o2 g.o3)

/-- The four piles as a function of the array index used by the source
(`orchards[0] = red, ..., orchards[3] = yellow`); indices ≥ 3 read the last
pile (callers always pass an index below 4). -/
def Game.orchardAt (g : Game) : Nat → Nat
  | 0 => g.o0
  | 1 => g.o1
  | 2 => g.o2
  | _ => g.o3

/-- C2: the basket roll decrements (saturating) a pile holding the current
maximum and leaves the other three piles and the bird position unchanged;
in particular piles `[4,1,1,1]` become `[3,1,1,1]`. -/
theorem basket_decrements_max (g : Game) :
    (g.step DieRoll.Basket).bird_position = g.bird_position ∧
    ((g.o0 = g.maxPile ∧ g.step DieRoll.Basket = { g with o0 := g.o0 - 1 }) ∨
     (g.o1 = g.maxPile ∧ g.step DieRoll.Basket = { g with o1 := g.o1 - 1 }) ∨
     (g.o2 = g.maxPile ∧ g.step DieRoll.Basket = { g with o2 := g.o2 - 1 }) ∨
     (g.o3 = g.maxPile ∧ g.step DieRoll.Basket = { g with o3 := g.o3 - 1 })) ∧
    Game.step (Game.mk g.bird_position 4 1 1 1) DieRoll.Basket =
      Game.mk g.bird_position 3 1 1 1 := by
  obtain ⟨b, a0, a1, a2, a3⟩ := g
  refine ⟨?_, ?_, ?_⟩
  · simp only [Game.step]
    split_ifs <;> rfl
  · simp only [Game.step, Game.maxPile]
    split_ifs with h1 h2 h3
    · exact Or.inr (Or.inr (Or.inr ⟨h1, rfl⟩))
    · exact Or.inr (Or.inr (Or.inl ⟨h2, rfl⟩))
    · exact Or.inr (Or.inl ⟨h3, rfl⟩)
    · refine Or.inl ⟨?_, rfl⟩
      dsimp only at h1 h2 h3 ⊢
      omega
  · simp only [Game.step]
    norm_num

/-- C7 counterexample: on piles `[3,3,1,1]` (indices 0 and 1 tie for the
maximum 3), the basket roll does *not* decrement the smallest-index tied
pile: the result is `[3,2,1,1]`, not `[2,3,1,1]`. -/
theorem basket_first_max_refuted :
    (Game.mk 5 3 3 1 1).o0 = (Game.mk 5 3 3 1 1).maxPile ∧
    (Game.mk 5 3 3 1 1).o1 = (Game.mk 5 3 3 1 1).maxPile ∧
    Game.step (Game.mk 5 3 3 1 1) DieRoll.Basket ≠ Game.mk 5 2 3 1 1 ∧
    Game.step (Game.mk 5 3 3 1 1) DieRoll.Basket = Game.mk 5 3 2 1 1 := by
  decide

/-- C7 amended: the basket roll decrements the *last*-encountered maximum
pile — the pile of greatest index attaining the maximum (Rust's
`Iterator::max` returns the last of equally-maximal elements). -/
theorem basket_decrements_last_max (g : Game) :
    (g.o3 = g.maxPile ∧ g.step DieRoll.Basket = { g with o3 := g.o3 - 1 }) ∨
    (g.o3 < g.maxPile ∧ g.o2 = g.maxPile ∧
      g.step DieRoll.Basket = { g with o2 := g.o2 - 1 }) ∨
    (g.o3 < g.maxPile ∧ g.o2 < g.maxPile ∧ g.o1 = g.maxPile ∧
      g.step DieRoll.Basket = { g with o1 := g.o1 - 1 }) ∨
    (g.o3 < g.maxPile ∧ g.o2 < g.maxPile ∧ g.o1 < g.maxPile ∧
      g.o0 = g.maxPile ∧ g.step DieRoll.Basket = { g with o0 := g.o0 - 1 }) := by
  obtain ⟨b, a0, a1, a2, a3⟩ := g
  simp only [Game.step, Game.maxPile]
  split_ifs with h1 h2 h3
  · exact Or.inl ⟨h1, rfl⟩
  · refine Or.inr (Or.inl ⟨?_, h2, rfl⟩)
    dsimp only at h1 ⊢
    omega
  · refine Or.inr (Or.inr (Or.inl ⟨?_, ?_, h3, rfl⟩)) <;>
      (dsimp only at h1 h2 ⊢; omega)
  · refine Or.inr (Or.inr (Or.inr ⟨?_, ?_, ?_, ?_, rfl⟩)) <;>
      (dsimp only at h1 h2 h3 ⊢; omega)

/-- C10: when two or more piles tie for the maximum, the basket roll
decrements the tied pile with the largest index: the decremented pile `k`
holds the maximum, every pile of index greater than `k` is strictly below
the maximum, and all other piles and the bird position are unchanged.
For example, piles `[3,3,1,1]` become `[3,2,1,1]`. -/
theorem basket_tie_hits_largest_index (g : Game) (i j : Nat) (hij : i < j)
    (hj4 : j < 4) (hi : g.orchardAt i = g.maxPile)
    (hj : g.orchardAt j = g.maxPile) :
    (∃ k : Nat, k < 4 ∧
      g.orchardAt k = g.maxPile ∧
      (∀ l : Nat, l < 4 → k < l → g.orchardAt l < g.maxPile) ∧
      (g.step DieRoll.Basket).orchardAt k = g.orchardAt k - 1 ∧
      (∀ l : Nat, l < 4 → l ≠ k →
        (g.step DieRoll.Basket).orchardAt l = g.orchardAt l) ∧
      (g.step DieRoll.Basket).bird_position = g.bird_position) ∧
    Game.step (Game.mk g.bird_position 3 3 1 1) DieRoll.Basket =
      Game.mk g.bird_position 3 2 1 1 := by
  obtain ⟨b, a0, a1, a2, a3⟩ := g
  clear hij hj4 hi hj
  constructor
  · simp only [Game.step, Game.maxPile]
    split_ifs with h1 h2 h3
    · refine ⟨3, by omega, h1, ?_, rfl, ?_, rfl⟩
      · intro l h4 hk
        exact absurd h4 (by omega)
      · intro l h4 hk
        interval_cases l <;> first | rfl | exact absurd rfl hk
    · refine ⟨2, by omega, h2, ?_, rfl, ?_, rfl⟩
      · intro l h4 hk
        interval_cases l
        simp only [Game.orchardAt]
        omega
      · intro l h4 hk
        interval_cases l <;> first | rfl | exact absurd rfl hk
    · refine ⟨1, by omega, h3, ?_, rfl, ?_, rfl⟩
      · intro l h4 hk
        interval_cases l <;> simp only [Game.orchardAt] <;> omega
      · intro l h4 hk
        interval_cases l <;> first | rfl | exact absurd rfl hk
    · refine ⟨0, by omega, ?_, ?_, rfl, ?_, rfl⟩
      · simp only [Game.orchardAt]
        omega
      · intro l h4 hk
        interval_cases l <;> simp only [Game.orchardAt] <;> omega
      · intro l h4 hk
        interval_cases l <;> first | rfl | exact absurd rfl hk
  · simp only [Game.step]
    norm_num

/-- Witness for `basket_tie_hits_largest_index` at `⟨5, 3, 3, 1, 1⟩` with the
tie between indices 0 and 1: the basket roll yields piles `[3,2,1,1]`. -/
theorem basket_tie_hits_largest_index_witness :
    Game.step (Game.mk 5 3 3 1 1) DieRoll.Basket = Game.mk 5 3 2 1 1 :=
  (basket_tie_hits_largest_index (Game.mk 5 3 3 1 1) 0 1 (by decide)
    (by decide) (by decide) (by decide)).2

/-- C8: each resource-category roll changes only its own pile (decremented
saturating by 1); the other three piles and the bird position are untouched,
and the bird roll leaves all four piles untouched. -/
theorem step_frame (g : Game) :
    (g.step DieRoll.Red = { g with o0 := g.o0 - 1 }) ∧
    (g.step DieRoll.Green = { g with o1 := g.o1 - 1 }) ∧
    (g.step DieRoll.Blue = { g with o2 := g.o2 - 1 }) ∧
    (g.step DieRoll.Yellow = { g with o3 := g.o3 - 1 }) ∧
    ((g.step DieRoll.Bird).o0 = g.o0 ∧ (g.step DieRoll.Bird).o1 = g.o1 ∧
      (g.step DieRoll.Bird).o2 = g.o2 ∧ (g.step DieRoll.Bird).o3 = g.o3) :=
  ⟨rfl, rfl, rfl, rfl, rfl, rfl, rfl, rfl⟩

/-- C4: a roll whose target counter is already 0 leaves that counter at 0:
a resource roll on an empty pile, the basket roll when all piles are empty,
and the bird roll at bird position 0 are all defined no-ops on their
counter (saturating subtraction never wraps below zero). -/
theorem step_saturates (g : Game) :
    (g.o0 = 0 → (g.step DieRoll.Red).o0 = 0) ∧
    (g.o1 = 0 → (g.step DieRoll.Green).o1 = 0) ∧
    (g.o2 = 0 → (g.step DieRoll.Blue).o2 = 0) ∧
    (g.o3 = 0 → (g.step DieRoll.Yellow).o3 = 0) ∧
    (g.o0 = 0 → g.o1 = 0 → g.o2 = 0 → g.o3 = 0 →
      g.step DieRoll.Basket = g) ∧
    (g.bird_position = 0 → (g.step DieRoll.Bird).bird_position = 0) := by
  obtain ⟨b, a0, a1, a2, a3⟩ := g
  refine ⟨?_, ?_, ?_, ?_, ?_, ?_⟩ <;> simp only [Game.step] <;> intros <;>
    subst_vars <;> rfl

/-- Witness for `step_saturates` at the all-zero state: the basket roll on
four empty piles is a no-op. -/
theorem step_saturates_witness :
    Game.step (Game.mk 7 0 0 0 0) DieRoll.Basket = Game.mk 7 0 0 0 0 :=
  (step_saturates (Game.mk 7 0 0 0 0)).2.2.2.2.1 rfl rfl rfl rfl

/-- C5: every transition from a state whose piles are each at most 4 (the
invariant established by `Game::new`) yields piles each at most 4, never
increases the bird position, and never increases the pile sum. -/
theorem step_invariants (g : Game) (r : DieRoll)
    (h0 : g.o0 ≤ 4) (h1 : g.o1 ≤ 4) (h2 : g.o2 ≤ 4) (h3 : g.o3 ≤ 4) :
    ((g.step r).o0 ≤ 4 ∧ (g.step r).o1 ≤ 4 ∧ (g.step r).o2 ≤ 4 ∧
      (g.step r).o3 ≤ 4) ∧
    (g.step r).bird_position ≤ g.bird_position ∧
    (g.step r).pileSum ≤ g.pileSum := by
  obtain ⟨b, a0, a1, a2, a3⟩ := g
  simp only at h0 h1 h2 h3
  cases r <;> simp only [Game.step, Game.pileSum] <;> (try split_ifs) <;>
    (try dsimp only) <;> omega

/-- Witness for `step_invariants` at the fresh state `Game.new 6` with a
basket roll. -/
theorem step_invariants_witness :
    (((Game.new 6).step DieRoll.Basket).o0 ≤ 4 ∧
      ((Game.new 6).step DieRoll.Basket).o1 ≤ 4 ∧
      ((Game.new 6).step DieRoll.Basket).o2 ≤ 4 ∧
      ((Game.new 6).step DieRoll.Basket).o3 ≤ 4) ∧
    ((Game.new 6).step DieRoll.Basket).bird_position ≤
      (Game.new 6).bird_position ∧
    ((Game.new 6).step DieRoll.Basket).pileSum ≤ (Game.new 6).pileSum :=
  step_invariants (Game.new 6) DieRoll.Basket
    (by decide) (by decide) (by decide) (by decide)

/-- A roll application that changes the state decreases the termination
measure `bird_position + pileSum` by exactly one. -/
theorem step_measure_of_ne (g : Game) (r : DieRoll) (h : g.step r ≠ g) :
    (g.step r).measure + 1 = g.measure := by
  obtain ⟨b, a0, a1, a2, a3⟩ := g
  cases r <;>
    simp only [Game.step, Game.measure, Game.pileSum, ne_eq, Game.mk.injEq] at h ⊢ <;>
    (try split_ifs at h ⊢) <;> (try simp at h) <;> (try dsimp only) <;> omega

/-- A non-terminal state after a transition has nonzero bird position and
nonzero pile sum. -/
theorem terminalCheck_none (g : Game) (h : g.terminalCheck = none) :
    g.bird_position ≠ 0 ∧ g.pileSum ≠ 0 := by
  by_cases hb : g.bird_position = 0
  · simp [Game.terminalCheck, hb] at h
  · refine ⟨hb, ?_⟩
    intro hp
    simp [Game.terminalCheck, hb, hp] at h

/-- C3 amended: the trial loop reaches a terminal outcome within at most
`bird_position + pileSum` roll applications, *provided every applied roll
changes the state*: a roll whose saturating decrement targets a counter that
is already 0 is a no-op and does not advance the game, so the bound only
counts state-changing applications. -/
theorem runTrial_effective_bound (g : Game) (rs : List DieRoll)
    (hpos : 1 ≤ g.measure) (hlen : g.measure ≤ rs.length)
    (heff : g.allEffective rs = true) :
    (g.runTrial rs).isSome := by
  induction rs generalizing g with
  | nil =>
    simp only [List.length_nil] at hlen
    omega
  | cons r rs ih =>
    rw [Game.runTrial]
    rw [Game.allEffective] at heff
    by_cases hne : g.step r = g
    · rw [if_pos hne] at heff
      exact absurd heff (by simp)
    · rw [if_neg hne] at heff
      cases hterm : (g.step r).terminalCheck with
      | some o => simp
      | none =>
        rw [hterm] at heff
        simp only
        have hmeas := step_measure_of_ne g r hne
        have hnz := terminalCheck_none (g.step r) hterm
        have hpos' : 1 ≤ (g.step r).measure := by
          have := hnz.1
          simp only [Game.measure]
          omega
        have hlen' : (g.step r).measure ≤ rs.length := by
          simp only [List.length_cons] at hlen
          omega
        exact ih (g.step r) hpos' hlen' heff

/-- Witness for `runTrial_effective_bound` at `⟨1, 0, 0, 0, 0⟩` with a single
bird roll: the measure is 1 and the trial ends (Lost) within 1 roll. -/
theorem runTrial_effective_bound_witness :
    ((Game.mk 1 0 0 0 0).runTrial [DieRoll.Bird]).isSome :=
  runTrial_effective_bound (Game.mk 1 0 0 0 0) [DieRoll.Bird]
    (by decide) (by decide) (by decide)

/-- C3 counterexample: from `Game::new(1)` (measure `1 + 16 = 17`), the
sequence of 17 red rolls produces no terminal outcome — after the red pile
empties, further red rolls are saturating no-ops, so the claimed bound
`initial_guard_position + sum(initial piles)` does not hold for every roll
sequence. -/
theorem runTrial_bound_refuted :
    (Game.new 1).measure = 17 ∧
    (Game.new 1).runTrial (List.replicate 17 DieRoll.Red) = none := by
  decide

/-- C6: the `(won, lost)` reduction is commutative and associative with
identity `(0, 0)`, and tallying any partition of the trials into sub-batches
and combining the sub-tallies gives the same total as one batch. -/
theorem tally_reduction_associative :
    (∀ a b : Nat × Nat, combine a b = combine b a) ∧
    (∀ a b c : Nat × Nat, combine (combine a b) c = combine a (combine b c)) ∧
    (∀ a : Nat × Nat, combine a (0, 0) = a ∧ combine (0, 0) a = a) ∧
    (∀ parts : List (List Outcome),
      (parts.map tally).foldr combine (0, 0) = tally parts.join) := by
  refine ⟨?_, ?_, ?_, ?_⟩
  · intro a b
    simp [combine, Nat.add_comm]
  · intro a b c
    simp [combine, Nat.add_assoc]
  · intro a
    constructor <;> simp [combine]
  · intro parts
    induction parts with
    | nil => simp [tally]
    | cons p ps ih =>
      rw [List.map_cons, List.foldr_cons, ih, ← tally_append]
      rfl

/-- The two tally components of a batch sum to the number of trials. -/
theorem tally_won_add_lost (os : List Outcome) :
    (tally os).1 + (tally os).2 = os.length := by
  induction os with
  | nil => rfl
  | cons o os ih =>
    simp only [tally, List.map_cons, List.foldr_cons, List.length_cons] at ih ⊢
    cases o <;> simp only [tallyOutcome, combine] <;> omega

/-- C9: for a nonempty batch of per-trial outcomes, `won + lost` equals the
trial count and the win rate `100 * won / (won + lost)` lies between 0 and
100 (floating-point division modelled as exact rational division). -/
theorem winRate_bounds (os : List Outcome) (h : 0 < os.length) :
    (tally os).1 + (tally os).2 = os.length ∧
    0 ≤ winRate os ∧ winRate os ≤ 100 := by
  have hlen := tally_won_add_lost os
  refine ⟨hlen, ?_, ?_⟩
  · unfold winRate
    positivity
  · unfold winRate
    have hpos : 0 < ((tally os).1 : ℚ) + ((tally os).2 : ℚ) := by
      have hn : 0 < (tally os).1 + (tally os).2 := by omega
      exact_mod_cast hn
    rw [div_le_iff hpos]
    have hl : (0 : ℚ) ≤ ((tally os).2 : ℚ) := by positivity
    linarith

/-- Witness for `winRate_bounds` at the single-trial batch `[Won]`. -/
theorem winRate_bounds_witness :
    (tally [Outcome.Won]).1 + (tally [Outcome.Won]).2 =
      [Outcome.Won].length ∧
    0 ≤ winRate [Outcome.Won] ∧ winRate [Outcome.Won] ≤ 100 :=
  winRate_bounds [Outcome.Won] (by decide)

end Orchard
